import Mathlib

/-!
Shallow embedding of the computation helpers of the expense-tracker
application (src/app.py): the dashboard aggregation helpers, the shared
expense intake route and the settlement-balance helper.

Modelling conventions:
* Monetary amounts are rationals.  Python's `round(x, 2)` is modelled by
  `round2`, rounding to an integer number of cents.
* A Python `dict` with string keys and numeric values is modelled as an
  association list in insertion order (`Dict`): key lookup takes the first
  matching entry, assignment to a present key updates it in place, and
  assignment to an absent key appends at the end, exactly as Python does.
* The Mongo queries `find(filter)` are modelled by `List.filter` over an
  in-memory snapshot of the corresponding collection, and the wall clock
  `now_year_month` is an explicit pair of parameters `(cy, cm)`.
-/

namespace ExpenseTracker

/-- Python `round(q, 2)`: round to two decimal places.  (Python rounds
    half-to-even and `round` rounds half-up; the two agree everywhere except
    at exact half-cent ties, which no statement below exercises.) -/
def round2 (q : ℚ) : ℚ := ((round (100 * q) : ℤ) : ℚ) / 100

/-! ### Python dict model -/

/-- A Python dict from strings to numbers, in insertion order. -/
abbrev Dict := List (String × ℚ)

/-- `k in d` for a Python dict. -/
def hasKey : Dict → String → Bool
  | [], _ => false
  | e :: rest, k => e.1 = k || hasKey rest k

/-- `d.get(k, 0)`: value of the first entry with key `k`, or `0`. -/
def lookupD : Dict → String → ℚ
  | [], _ => 0
  | e :: rest, k => if e.1 = k then e.2 else lookupD rest k

/-- `d[k]` as a partial operation: `none` models a Python `KeyError`. -/
def lookupOpt : Dict → String → Option ℚ
  | [], _ => none
  | e :: rest, k => if e.1 = k then some e.2 else lookupOpt rest k

/-- `d[k] += v` on a present key (no-op when `k` is absent; in the source
    every use is guarded by `setdefault` or by the zero-filled init). -/
def dictAdd : Dict → String → ℚ → Dict
  | [], _, _ => []
  | e :: rest, k, v =>
    if e.1 = k then (e.1, e.2 + v) :: dictAdd rest k v
    else e :: dictAdd rest k v

/-- `d.setdefault(k, v)`: insert `(k, v)` at the end when `k` is absent. -/
def dictSetdefault (d : Dict) (k : String) (v : ℚ) : Dict :=
  if hasKey d k then d else d ++ [(k, v)]

/-- `d[k] = v`: update in place when present, append when absent. -/
def dictSet (d : Dict) (k : String) (v : ℚ) : Dict :=
  if hasKey d k then
    d.map (fun e => if e.1 = k then (e.1, v) else e)
  else d ++ [(k, v)]

/-- `list(d.keys())`. -/
def dkeys (d : Dict) : List String := d.map Prod.fst

/-- `sum(d.values())`. -/
def vsum (d : Dict) : ℚ := (d.map Prod.snd).sum

/-! ### Records -/

/-- A personal-expense document as inserted by `add_expense`
    (`created_at` is only used for display elsewhere and is omitted). -/
structure Expense where
  amount : ℚ
  category : String
  description : String
  payment_mode : String
  date : String
  month : ℕ
  year : ℕ
  is_shared : Bool
  is_deleted : Bool
deriving DecidableEq

/-- A budget document. -/
structure Budget where
  category : String
  monthly_limit : ℚ
deriving DecidableEq

/-- A shared-expense document as inserted by `add_shared_expense`
    (`created_at` omitted as above). -/
structure SharedExpense where
  title : String
  total_amount : ℚ
  paid_by : String
  participants : List String
  per_person_amount : ℚ
  date : String
  is_settled : Bool
  settled_at : Option String
deriving DecidableEq

/-! ### Time utilities -/

/-- `calendar.month_name`: a 13-entry sequence whose entry 0 is empty. -/
def monthNames : List String :=
  ["", "January", "February", "March", "April", "May", "June",
   "July", "August", "September", "October", "November", "December"]

/-- Python sequence indexing `l[i]` with an int index: negative indices
    count from the end, out-of-range indexing is an `IndexError` (`none`). -/
def pyIndex (l : List String) (i : ℤ) : Option String :=
  let j : ℤ := if i < 0 then i + l.length else i
  if j < 0 then none else l.get? j.toNat

/-- `month_name(num)` from the source: `calendar.month_name[num]`. -/
def month_name (num : ℤ) : Option String := pyIndex monthNames num

/-- Total display name used when building dict keys for months `1..12`
    (the source only ever indexes with a valid month there). -/
def mname (m : ℕ) : String := (monthNames.get? m).getD ""

/-! ### Aggregation engine -/

/-- Filter of `get_monthly_total`'s Mongo query. -/
def monthlyPred (month year : ℕ) (e : Expense) : Bool :=
  e.month = month && e.year = year && !e.is_deleted && !e.is_shared

/-- `get_monthly_total(month, year)`. -/
def get_monthly_total (records : List Expense) (month year : ℕ) : ℚ :=
  ((records.filter (monthlyPred month year)).map (·.amount)).sum

/-- Filter of `get_yearly_total`'s Mongo query. -/
def yearlyPred (year : ℕ) (e : Expense) : Bool :=
  e.year = year && !e.is_deleted && !e.is_shared

/-- `get_yearly_total(year)`. -/
def get_yearly_total (records : List Expense) (year : ℕ) : ℚ :=
  ((records.filter (yearlyPred year)).map (·.amount)).sum

/-- The query built by `get_category_totals`: note the Python truthiness
    tests `if month:` / `if year:`, under which an argument of `0` adds no
    filter, exactly like `None`. -/
def catPred (month year : Option ℕ) (e : Expense) : Bool :=
  !e.is_deleted && !e.is_shared
    && (match month with
        | none => true
        | some m => if m = 0 then true else e.month = m)
    && (match year with
        | none => true
        | some y => if y = 0 then true else e.year = y)

/-- `get_category_totals(month, year)`: `totals[c] = totals.get(c, 0) + a`. -/
def get_category_totals (records : List Expense) (month year : Option ℕ) :
    Dict :=
  (records.filter (catPred month year)).foldl
    (fun d e => dictSet d e.category (lookupD d e.category + e.amount)) []

/-- The zero-filled dict `breakdown = {month_name(m): 0 for m in 1..K}`. -/
def breakdownInit (K : ℕ) : Dict :=
  (List.range K).map (fun i => (mname (i + 1), (0 : ℚ)))

/-- One loop iteration of `get_monthly_breakdown`: add the record's amount
    to its month's key, skipping records whose month exceeds `K`. -/
def breakdownStep (K : ℕ) (b : Dict) (e : Expense) : Dict :=
  if e.month ≤ K then dictAdd b (mname e.month) e.amount else b

/-- `get_monthly_breakdown(year)`, with the wall clock `(cy, cm)` passed
    explicitly.  The dict starts zero-filled for months `1..K` and each
    matching record with `month <= K` is added to its month's key. -/
def get_monthly_breakdown (cy cm : ℕ) (records : List Expense) (year : ℕ) :
    Dict :=
  (records.filter (yearlyPred year)).foldl
    (breakdownStep (if year = cy then cm else 12))
    (breakdownInit (if year = cy then cm else 12))

/-- `average_monthly_spend(year)`, wall clock passed explicitly. -/
def average_monthly_spend (cy cm : ℕ) (records : List Expense) (year : ℕ) :
    ℚ :=
  let months := if year = cy then cm else 12
  if months = 0 then 0
  else round2 (get_yearly_total records year / months)

/-- An alert dict emitted by `budget_alerts`. -/
structure Alert where
  category : String
  limit : ℚ
  spent : ℚ
deriving DecidableEq

/-- `budget_alerts(month, year)`: one alert per budget whose category
    spend strictly exceeds its monthly limit. -/
def budget_alerts (records : List Expense) (budgets : List Budget)
    (month year : ℕ) : List Alert :=
  let totals := get_category_totals records (some month) (some year)
  budgets.filterMap (fun b =>
    let spent := lookupD totals b.category
    if b.monthly_limit < spent then
      some { category := b.category, limit := b.monthly_limit, spent := spent }
    else none)

/-! ### Shared expenses -/

/-- Python `str.split(",")` at the character level: cut the character list
    at every comma, keeping empty fields (so `""` splits to `[""]`). -/
def pySplitComma : List Char → List (List Char)
  | [] => [[]]
  | c :: rest =>
    if c = ',' then [] :: pySplitComma rest
    else
      match pySplitComma rest with
      | [] => [[c]]
      | g :: gs => (c :: g) :: gs

/-- Python `str.strip()`: drop leading and trailing whitespace. -/
def pyStrip (l : List Char) : List Char :=
  ((l.dropWhile Char.isWhitespace).reverse.dropWhile Char.isWhitespace).reverse

/-- The comma-separated fields of the `participants` form input, each with
    surrounding whitespace stripped. -/
def trimmedFields (raw : String) : List String :=
  (pySplitComma raw.data).map (fun f => String.mk (pyStrip f))

/-- The participant-list cleanup in `add_shared_expense`: split the raw
    form field on commas, strip whitespace, drop empty entries and entries
    equal to `paid_by`. -/
def splitParticipants (raw paid_by : String) : List String :=
  (trimmedFields raw).filter (fun p => decide (p ≠ "" ∧ p ≠ paid_by))

/-- The document built and inserted by the POST branch of
    `add_shared_expense`: `people = [paid_by] + others`,
    `per_person = round(total / len(people), 2)`. -/
def add_shared_expense (title paid_by raw date : String) (total_amount : ℚ) :
    SharedExpense :=
  let others := splitParticipants raw paid_by
  let people := paid_by :: others
  let per_person := round2 (total_amount / (people.length : ℚ))
  { title := title
    total_amount := total_amount
    paid_by := paid_by
    participants := people
    per_person_amount := per_person
    date := date
    is_settled := false
    settled_at := none }

/-- The body of `calculate_net_balances`' loop for one unsettled record. -/
def processRecord (balances : Dict) (exp : SharedExpense) : Dict :=
  let b1 := dictSetdefault balances exp.paid_by 0
  let b2 := dictAdd b1 exp.paid_by exp.total_amount
  exp.participants.foldl
    (fun b p => dictAdd (dictSetdefault b p 0) p (-exp.per_person_amount)) b2

/-- `calculate_net_balances()` over a snapshot of the shared collection:
    fold over the records matching `is_settled == False`. -/
def calculate_net_balances (records : List SharedExpense) : Dict :=
  (records.filter (fun r => !r.is_settled)).foldl processRecord []

/-- The net effect of one record on one participant's balance: credit the
    payer with the total, debit `per_person_amount` per occurrence in
    `participants`. -/
def contrib (r : SharedExpense) (x : String) : ℚ :=
  (if x = r.paid_by then r.total_amount else 0)
    - r.per_person_amount * (r.participants.count x : ℚ)

/-- `b.setdefault(k, 0); b[k] += v`, the update pattern used on both the
    payer and each participant inside `calculate_net_balances`. -/
def bump (d : Dict) (k : String) (v : ℚ) : Dict :=
  dictAdd (dictSetdefault d k 0) k v

/-! ### Dict lemmas -/

theorem dkeys_nil : dkeys [] = [] := rfl

theorem dkeys_cons (e : String × ℚ) (d : Dict) :
    dkeys (e :: d) = e.1 :: dkeys d := rfl

theorem vsum_nil : vsum [] = 0 := rfl

theorem vsum_cons (e : String × ℚ) (d : Dict) :
    vsum (e :: d) = e.2 + vsum d := by
  simp [vsum]

theorem hasKey_iff_mem {d : Dict} {k : String} :
    hasKey d k = true ↔ k ∈ dkeys d := by
  induction d with
  | nil => simp [hasKey, dkeys]
  | cons e rest ih =>
    simp only [hasKey, Bool.or_eq_true, decide_eq_true_eq, ih, dkeys_cons,
      List.mem_cons]
    exact or_congr eq_comm Iff.rfl

theorem lookupD_cons (e : String × ℚ) (d : Dict) (k : String) :
    lookupD (e :: d) k = if e.1 = k then e.2 else lookupD d k := rfl

theorem lookupD_eq_zero_of_not_hasKey {d : Dict} {k : String}
    (h : hasKey d k = false) : lookupD d k = 0 := by
  induction d with
  | nil => rfl
  | cons e rest ih =>
    simp only [hasKey, Bool.or_eq_false_iff, decide_eq_false_iff_not] at h
    rw [lookupD_cons, if_neg h.1]
    exact ih h.2

theorem lookupD_append_zero (d : Dict) (k x : String) :
    lookupD (d ++ [(k, 0)]) x = lookupD d x := by
  induction d with
  | nil =>
    rw [List.nil_append]
    show (if k = x then (0 : ℚ) else lookupD [] x) = lookupD [] x
    split <;> rfl
  | cons e rest ih =>
    rw [List.cons_append, lookupD_cons, lookupD_cons, ih]

theorem lookupD_setdefault_zero (d : Dict) (k x : String) :
    lookupD (dictSetdefault d k 0) x = lookupD d x := by
  unfold dictSetdefault
  split
  · rfl
  · exact lookupD_append_zero d k x

theorem dkeys_dictAdd (d : Dict) (k : String) (v : ℚ) :
    dkeys (dictAdd d k v) = dkeys d := by
  induction d with
  | nil => rfl
  | cons e rest ih =>
    rw [dictAdd]
    split
    · rw [dkeys_cons, dkeys_cons, ih]
    · rw [dkeys_cons, dkeys_cons, ih]

theorem hasKey_dictAdd (d : Dict) (k x : String) (v : ℚ) :
    hasKey (dictAdd d k v) x = hasKey d x := by
  induction d with
  | nil => rfl
  | cons e rest ih =>
    rw [dictAdd]
    split
    · show (decide ((e.1, e.2 + v).1 = x) || _) = _
      simp only [hasKey, ih]
    · simp only [hasKey, ih]

theorem hasKey_setdefault (d : Dict) (k : String) (v : ℚ) :
    hasKey (dictSetdefault d k v) k = true := by
  unfold dictSetdefault
  split
  · assumption
  · rw [hasKey_iff_mem, dkeys, List.map_append]
    exact List.mem_append_right _ (by simp)

theorem hasKey_setdefault_mono {d : Dict} {x : String} (k : String) (v : ℚ)
    (h : hasKey d x = true) : hasKey (dictSetdefault d k v) x = true := by
  unfold dictSetdefault
  split
  · exact h
  · rw [hasKey_iff_mem, dkeys, List.map_append]
    rw [hasKey_iff_mem] at h
    exact List.mem_append_left _ h

theorem lookupD_dictAdd_of_ne {x k : String} (d : Dict) (v : ℚ) (h : x ≠ k) :
    lookupD (dictAdd d k v) x = lookupD d x := by
  induction d with
  | nil => rfl
  | cons e rest ih =>
    rw [dictAdd]
    split
    · next he =>
      rw [lookupD_cons, lookupD_cons]
      have hex : ¬ e.1 = x := fun hh => h (hh.symm.trans he)
      rw [if_neg hex, if_neg hex, ih]
    · rw [lookupD_cons, lookupD_cons, ih]

theorem lookupD_dictAdd_self {d : Dict} {k : String} (v : ℚ)
    (h : hasKey d k = true) : lookupD (dictAdd d k v) k = lookupD d k + v := by
  induction d with
  | nil => simp [hasKey] at h
  | cons e rest ih =>
    simp only [hasKey, Bool.or_eq_true, decide_eq_true_eq] at h
    rw [dictAdd]
    split
    · next he =>
      rw [lookupD_cons, lookupD_cons, if_pos he, if_pos he]
    · next he =>
      rw [lookupD_cons, lookupD_cons, if_neg he, if_neg he]
      exact ih (h.resolve_left he)

theorem lookupD_bump (d : Dict) (k x : String) (v : ℚ) :
    lookupD (bump d k v) x = lookupD d x + if x = k then v else 0 := by
  unfold bump
  by_cases h : x = k
  · subst h
    rw [lookupD_dictAdd_self v (hasKey_setdefault d x 0),
      lookupD_setdefault_zero, if_pos rfl]
  · rw [lookupD_dictAdd_of_ne _ v h, lookupD_setdefault_zero, if_neg h,
      add_zero]

theorem hasKey_bump_self (d : Dict) (k : String) (v : ℚ) :
    hasKey (bump d k v) k = true := by
  rw [bump, hasKey_dictAdd]
  exact hasKey_setdefault d k 0

theorem hasKey_bump_mono {d : Dict} {x : String} (k : String) (v : ℚ)
    (h : hasKey d x = true) : hasKey (bump d k v) x = true := by
  rw [bump, hasKey_dictAdd]
  exact hasKey_setdefault_mono k 0 h

theorem dkeys_bump (d : Dict) (k : String) (v : ℚ) :
    dkeys (bump d k v)
      = if hasKey d k then dkeys d else dkeys d ++ [k] := by
  rw [bump, dkeys_dictAdd, dictSetdefault]
  split
  · rfl
  · rw [dkeys, List.map_append]
    rfl

theorem nodup_dkeys_bump {d : Dict} (k : String) (v : ℚ)
    (h : (dkeys d).Nodup) : (dkeys (bump d k v)).Nodup := by
  rw [dkeys_bump]
  split
  · exact h
  · next hk =>
    rw [List.nodup_append]
    refine ⟨h, List.nodup_singleton k, ?_⟩
    intro a ha hb
    rw [List.mem_singleton] at hb
    subst hb
    rw [← hasKey_iff_mem] at ha
    simp_all

/-! ### vsum lemmas -/

theorem vsum_append (d : Dict) (k : String) (v : ℚ) :
    vsum (d ++ [(k, v)]) = vsum d + v := by
  simp [vsum]

theorem vsum_dictAdd (d : Dict) (k : String) (v : ℚ) :
    vsum (dictAdd d k v) = vsum d + v * ((dkeys d).count k : ℚ) := by
  induction d with
  | nil => simp [vsum, dictAdd, dkeys]
  | cons e rest ih =>
    rw [dictAdd]
    split
    · next he =>
      rw [vsum_cons, vsum_cons, dkeys_cons, ih, he, List.count_cons_self]
      push_cast
      ring
    · next he =>
      rw [vsum_cons, vsum_cons, dkeys_cons, ih,
        List.count_cons_of_ne (fun hh => he hh.symm)]
      ring

theorem vsum_bump {d : Dict} (k : String) (v : ℚ)
    (h : (dkeys d).Nodup) : vsum (bump d k v) = vsum d + v := by
  rw [bump, vsum_dictAdd]
  by_cases hk : hasKey d k = true
  · rw [dictSetdefault, if_pos hk]
    rw [hasKey_iff_mem] at hk
    rw [List.count_eq_one_of_mem h hk]
    simp
  · rw [dictSetdefault, if_neg (by simp_all), vsum_append]
    have hnk : k ∉ dkeys d := by
      rw [← hasKey_iff_mem]
      simp_all
    rw [dkeys, List.map_append, List.count_append,
      List.count_eq_zero_of_not_mem (by simpa [dkeys] using hnk)]
    simp [dkeys]

/-! ### Net-balance lemmas -/

theorem processRecord_eq_bump (b : Dict) (r : SharedExpense) :
    processRecord b r
      = r.participants.foldl (fun d p => bump d p (-r.per_person_amount))
          (bump b r.paid_by r.total_amount) := rfl

theorem lookupD_foldl_bump (l : List String) (b : Dict) (v : ℚ) (x : String) :
    lookupD (l.foldl (fun d p => bump d p v) b) x
      = lookupD b x + v * (l.count x : ℚ) := by
  induction l generalizing b with
  | nil => simp
  | cons p rest ih =>
    rw [List.foldl_cons, ih, lookupD_bump]
    by_cases hx : x = p
    · subst hx
      rw [List.count_cons_self, if_pos rfl]
      push_cast
      ring
    · rw [List.count_cons_of_ne (by simpa using hx), if_neg hx]
      ring

theorem lookupD_processRecord (b : Dict) (r : SharedExpense) (x : String) :
    lookupD (processRecord b r) x = lookupD b x + contrib r x := by
  rw [processRecord_eq_bump, lookupD_foldl_bump, lookupD_bump, contrib]
  by_cases hx : x = r.paid_by
  · rw [if_pos hx]
    ring
  · rw [if_neg hx]
    ring

theorem lookupD_foldl_processRecord (l : List SharedExpense) (b : Dict)
    (x : String) :
    lookupD (l.foldl processRecord b) x
      = lookupD b x + (l.map (fun r => contrib r x)).sum := by
  induction l generalizing b with
  | nil => simp
  | cons r rest ih =>
    rw [List.foldl_cons, ih, lookupD_processRecord, List.map_cons,
      List.sum_cons]
    ring

theorem netBalances_lookup (records : List SharedExpense) (x : String) :
    lookupD (calculate_net_balances records) x
      = ((records.filter (fun r => !r.is_settled)).map
          (fun r => contrib r x)).sum := by
  rw [calculate_net_balances, lookupD_foldl_processRecord]
  show (0 : ℚ) + _ = _
  ring

theorem nodup_dkeys_foldl_bump (l : List String) (v : ℚ) {b : Dict}
    (h : (dkeys b).Nodup) :
    (dkeys (l.foldl (fun d p => bump d p v) b)).Nodup := by
  induction l generalizing b with
  | nil => exact h
  | cons p rest ih => exact ih (nodup_dkeys_bump p v h)

theorem vsum_foldl_bump (l : List String) (v : ℚ) {b : Dict}
    (h : (dkeys b).Nodup) :
    vsum (l.foldl (fun d p => bump d p v) b)
      = vsum b + v * (l.length : ℚ) := by
  induction l generalizing b with
  | nil => simp
  | cons p rest ih =>
    rw [List.foldl_cons, ih (nodup_dkeys_bump p v h), vsum_bump p v h,
      List.length_cons]
    push_cast
    ring

theorem vsum_processRecord {b : Dict} (r : SharedExpense)
    (h : (dkeys b).Nodup) :
    vsum (processRecord b r)
      = vsum b + r.total_amount
        - r.per_person_amount * (r.participants.length : ℚ) := by
  rw [processRecord_eq_bump,
    vsum_foldl_bump _ _ (nodup_dkeys_bump _ _ h), vsum_bump _ _ h]
  ring

/-! ### Rounding -/

theorem abs_round2_sub (q : ℚ) : |round2 q - q| ≤ 1 / 200 := by
  have h := abs_sub_round (100 * q)
  rw [abs_le] at h
  rw [round2, abs_le]
  constructor
  · linarith [h.2]
  · linarith [h.1]

/-! ### Intake lemmas -/

theorem mem_splitParticipants {raw paid_by p : String} :
    p ∈ splitParticipants raw paid_by
      ↔ p ∈ trimmedFields raw ∧ p ≠ "" ∧ p ≠ paid_by := by
  simp [splitParticipants, List.mem_filter]

theorem count_splitParticipants {raw paid_by p : String}
    (h1 : p ≠ "") (h2 : p ≠ paid_by) :
    (splitParticipants raw paid_by).count p = (trimmedFields raw).count p := by
  rw [splitParticipants, List.count_filter]
  simp [h1, h2]

theorem paid_by_not_mem_split (raw paid_by : String) :
    paid_by ∉ splitParticipants raw paid_by := by
  intro h
  rw [mem_splitParticipants] at h
  exact h.2.2 rfl

theorem participants_add_shared (title paid_by raw date : String) (t : ℚ) :
    (add_shared_expense title paid_by raw date t).participants
      = paid_by :: splitParticipants raw paid_by := rfl

theorem per_person_add_shared (title paid_by raw date : String) (t : ℚ) :
    (add_shared_expense title paid_by raw date t).per_person_amount
      = round2 (t / ((1 + (splitParticipants raw paid_by).length : ℕ) : ℚ)) := by
  show round2 (t / (((paid_by :: splitParticipants raw paid_by).length : ℕ) : ℚ)) = _
  rw [List.length_cons]
  norm_num [Nat.add_comm]

theorem count_paid_by_participants (title paid_by raw date : String) (t : ℚ) :
    (add_shared_expense title paid_by raw date t).participants.count paid_by
      = 1 := by
  rw [participants_add_shared, List.count_cons_self,
    List.count_eq_zero_of_not_mem (paid_by_not_mem_split raw paid_by)]

theorem filter_ne_paid_by (title paid_by raw date : String) (t : ℚ) :
    (add_shared_expense title paid_by raw date t).participants.filter
      (fun p => decide (p ≠ paid_by)) = splitParticipants raw paid_by := by
  rw [participants_add_shared, List.filter_cons]
  rw [if_neg (by simp)]
  apply List.filter_eq_self.mpr
  intro p hp
  rw [mem_splitParticipants] at hp
  simpa using hp.2.2

/-! ### Month-name lemmas -/

theorem mname_inj : ∀ a, a < 13 → ∀ b, b < 13 → mname a = mname b → a = b := by
  decide

/-! ### Breakdown lemmas -/

theorem lookupOpt_eq_some {d : Dict} {k : String} (h : hasKey d k = true) :
    lookupOpt d k = some (lookupD d k) := by
  induction d with
  | nil => simp [hasKey] at h
  | cons e rest ih =>
    simp only [hasKey, Bool.or_eq_true, decide_eq_true_eq] at h
    show (if e.1 = k then some e.2 else lookupOpt rest k)
      = some (if e.1 = k then e.2 else lookupD rest k)
    by_cases he : e.1 = k
    · rw [if_pos he, if_pos he]
    · rw [if_neg he, if_neg he]
      exact ih (h.resolve_left he)

theorem lookupD_of_all_zero {d : Dict} (h : ∀ e ∈ d, e.2 = 0) (x : String) :
    lookupD d x = 0 := by
  induction d with
  | nil => rfl
  | cons e rest ih =>
    rw [lookupD_cons]
    split
    · exact h e (List.mem_cons_self e rest)
    · exact ih (fun e' he' => h e' (List.mem_cons_of_mem e he'))

theorem dkeys_breakdownInit (K : ℕ) :
    dkeys (breakdownInit K) = (List.range K).map (fun i => mname (i + 1)) := by
  rw [breakdownInit, dkeys, List.map_map]
  rfl

theorem lookupD_breakdownInit (K : ℕ) (x : String) :
    lookupD (breakdownInit K) x = 0 := by
  apply lookupD_of_all_zero
  intro e he
  rw [breakdownInit, List.mem_map] at he
  obtain ⟨i, _, rfl⟩ := he
  rfl

theorem hasKey_breakdownInit {K m : ℕ} (h1 : 1 ≤ m) (h2 : m ≤ K) :
    hasKey (breakdownInit K) (mname m) = true := by
  rw [hasKey_iff_mem, dkeys_breakdownInit]
  refine List.mem_map.mpr ⟨m - 1, List.mem_range.mpr (by omega), ?_⟩
  congr 1
  omega

theorem dkeys_breakdownStep (K : ℕ) (b : Dict) (e : Expense) :
    dkeys (breakdownStep K b e) = dkeys b := by
  unfold breakdownStep
  split
  · exact dkeys_dictAdd b (mname e.month) e.amount
  · rfl

theorem dkeys_foldl_breakdownStep (K : ℕ) (l : List Expense) (b : Dict) :
    dkeys (l.foldl (breakdownStep K) b) = dkeys b := by
  induction l generalizing b with
  | nil => rfl
  | cons e rest ih => rw [List.foldl_cons, ih, dkeys_breakdownStep]

theorem hasKey_foldl_breakdownStep {K : ℕ} {b : Dict} {x : String}
    (l : List Expense) (h : hasKey b x = true) :
    hasKey (l.foldl (breakdownStep K) b) x = true := by
  rw [hasKey_iff_mem, dkeys_foldl_breakdownStep]
  rwa [hasKey_iff_mem] at h

theorem lookupD_foldl_breakdownStep {K m : ℕ} (hK : K ≤ 12) (_h1 : 1 ≤ m)
    (h2 : m ≤ K) (l : List Expense)
    (hl : ∀ e ∈ l, 1 ≤ e.month ∧ e.month ≤ 12) (b : Dict)
    (hb : hasKey b (mname m) = true) :
    lookupD (l.foldl (breakdownStep K) b) (mname m)
      = lookupD b (mname m)
        + ((l.filter (fun e => e.month == m)).map (·.amount)).sum := by
  induction l generalizing b with
  | nil => simp
  | cons e rest ih =>
    have he := hl e (List.mem_cons_self e rest)
    have hrest : ∀ e' ∈ rest, 1 ≤ e'.month ∧ e'.month ≤ 12 :=
      fun e' he' => hl e' (List.mem_cons_of_mem e he')
    have hkey : hasKey (breakdownStep K b e) (mname m) = true := by
      rw [hasKey_iff_mem, dkeys_breakdownStep]
      rwa [hasKey_iff_mem] at hb
    rw [List.foldl_cons, ih hrest _ hkey, List.filter_cons]
    by_cases hm : e.month = m
    · rw [if_pos (by simpa using hm), breakdownStep, if_pos (hm ▸ h2), hm,
        lookupD_dictAdd_self _ hb, List.map_cons, List.sum_cons]
      ring
    · have hstep : lookupD (breakdownStep K b e) (mname m)
          = lookupD b (mname m) := by
        rw [breakdownStep]
        split
        · refine lookupD_dictAdd_of_ne _ _ (fun hc => ?_)
          exact hm (mname_inj m (by omega) e.month (by omega) hc).symm
        · rfl
      rw [if_neg (by simpa using hm), hstep]

/-- `monthlyPred` as a proposition. -/
theorem monthlyPred_iff (month year : ℕ) (e : Expense) :
    monthlyPred month year e = true
      ↔ e.month = month ∧ e.year = year
        ∧ e.is_deleted = false ∧ e.is_shared = false := by
  simp [monthlyPred, and_assoc]

/-! ## Claims -/

/-- C1 counterexample: for the intake with payer "A" and raw participant
    input "B,B", the stored participants list is `["A", "B", "B"]`: it
    contains `paid_by` and is not deduplicated, so the claim as stated is
    false of the code. -/
theorem claim_C1_counterexample :
    (add_shared_expense "t" "A" "B,B" "2024-01-01" 90).participants
        = ["A", "B", "B"]
    ∧ (add_shared_expense "t" "A" "B,B" "2024-01-01" 90).paid_by
        ∈ (add_shared_expense "t" "A" "B,B" "2024-01-01" 90).participants
    ∧ ¬ (add_shared_expense "t" "A" "B,B" "2024-01-01" 90).participants.Nodup
    := ⟨by decide, by decide, by decide⟩

/-- C1 (amended): the stored participants sequence of a record created by
    the shared-expense intake starts with `paid_by`; the entries after it
    are exactly the trimmed comma-separated raw entries with empty entries
    and entries equal to `paid_by` removed, duplicates retained (no
    deduplication). -/
theorem claim_C1 (title paid_by raw date : String) (t : ℚ) :
    (add_shared_expense title paid_by raw date t).participants.head?
        = some paid_by
    ∧ (∀ p : String,
        p ∈ (add_shared_expense title paid_by raw date t).participants.tail
          ↔ p ∈ trimmedFields raw ∧ p ≠ "" ∧ p ≠ paid_by)
    ∧ (∀ p : String, p ≠ "" → p ≠ paid_by →
        (add_shared_expense title paid_by raw date t).participants.tail.count p
          = (trimmedFields raw).count p) := by
  refine ⟨rfl, ?_, ?_⟩
  · intro p
    show p ∈ splitParticipants raw paid_by ↔ _
    exact mem_splitParticipants
  · intro p h1 h2
    show (splitParticipants raw paid_by).count p = _
    exact count_splitParticipants h1 h2

/-- C1 witness: the amended theorem read off at the concrete intake with
    payer "A" and raw input " B ,B". -/
theorem claim_C1_witness :
    (("B" : String)
        ∈ (add_shared_expense "t" "A" " B ,B" "d" 90).participants.tail
      ↔ ("B" : String) ∈ trimmedFields " B ,B"
          ∧ ("B" : String) ≠ "" ∧ ("B" : String) ≠ "A")
    ∧ (add_shared_expense "t" "A" " B ,B" "d" 90).participants.tail.count "B"
        = (trimmedFields " B ,B").count "B" :=
  ⟨(claim_C1 "t" "A" " B ,B" "d" 90).2.1 "B",
   (claim_C1 "t" "A" " B ,B" "d" 90).2.2 "B" (by decide) (by decide)⟩

/-- C2: `calculate_net_balances` credits the payer of each unsettled record
    with its full `total_amount` and debits `per_person_amount` once per
    occurrence in `participants`, nothing else (in particular no separate
    debit of the payer's own share); on the spec's literal single-record
    input it returns exactly A:90, B:-30, C:-30. -/
theorem claim_C2 :
    (∀ (records : List SharedExpense) (x : String),
      lookupD (calculate_net_balances records) x
        = ((records.filter (fun r => !r.is_settled)).map
            (fun r => (if x = r.paid_by then r.total_amount else 0)
              - r.per_person_amount * (r.participants.count x : ℚ))).sum)
    ∧ calculate_net_balances
        [{ title := "t", total_amount := 90, paid_by := "A",
           participants := ["B", "C"], per_person_amount := 30,
           date := "d", is_settled := false, settled_at := none }]
        = [("A", 90), ("B", -30), ("C", -30)] := by
  constructor
  · intro records x
    simpa [contrib] using netBalances_lookup records x
  · norm_num +decide [calculate_net_balances, processRecord, dictSetdefault,
      dictAdd, hasKey, List.filter]

/-- C3 counterexample: for the concrete intake (payer "A", raw input
    "B,C", total 90) the stored `per_person_amount` is 30 = round2(90/3),
    not round2(90/(1+3)) = 22.50 as the claim computes it from the stored
    participant count. -/
theorem claim_C3_counterexample :
    (add_shared_expense "t" "A" "B,C" "d" 90).per_person_amount = 30
    ∧ round2 ((add_shared_expense "t" "A" "B,C" "d" 90).total_amount
        / ((1 : ℚ)
          + ((add_shared_expense "t" "A" "B,C" "d" 90).participants.length
              : ℚ)))
        = 45 / 2
    ∧ (add_shared_expense "t" "A" "B,C" "d" 90).per_person_amount
        ≠ round2 ((add_shared_expense "t" "A" "B,C" "d" 90).total_amount
          / ((1 : ℚ)
            + ((add_shared_expense "t" "A" "B,C" "d" 90).participants.length
                : ℚ))) := by
  have hsplit : splitParticipants "B,C" "A" = ["B", "C"] := by decide
  refine ⟨?_, ?_, ?_⟩ <;>
    · simp only [add_shared_expense, hsplit]
      norm_num [round2, round_eq]

/-- C3 (amended): the stored `per_person_amount` equals `total_amount`
    divided by (1 + the number of stored participants other than the
    payer), equivalently `total_amount` divided by the full length of the
    stored participants sequence (which includes the payer), rounded to two
    decimal places. -/
theorem claim_C3 (title paid_by raw date : String) (t : ℚ) :
    (add_shared_expense title paid_by raw date t).per_person_amount
      = round2 (t / ((1 : ℚ)
          + (((add_shared_expense title paid_by raw date t).participants.filter
              (fun p => decide (p ≠ paid_by))).length : ℚ)))
    ∧ (add_shared_expense title paid_by raw date t).per_person_amount
      = round2 (t
          / (((add_shared_expense title paid_by raw date t).participants.length
              : ℚ))) := by
  constructor
  · rw [filter_ne_paid_by, per_person_add_shared]
    congr 1
    push_cast
    ring
  · rfl

/-- C4: a record constructed by the shared-expense intake stores `paid_by`
    as the first participant; consequently `calculate_net_balances` debits
    the payer one share besides crediting the total (net `t - per_person`),
    the sum of all balance values of the single-record snapshot equals
    `total_amount - n * per_person_amount` for `n` the stored participant
    count, and that sum is within `n/200` of zero, the drift of the
    2-decimal rounding of `per_person_amount`. -/
theorem claim_C4 (title paid_by raw date : String) (t : ℚ) :
    (add_shared_expense title paid_by raw date t).participants.head?
        = some (add_shared_expense title paid_by raw date t).paid_by
    ∧ lookupD
        (calculate_net_balances [add_shared_expense title paid_by raw date t])
        paid_by
        = t - (add_shared_expense title paid_by raw date t).per_person_amount
    ∧ vsum
        (calculate_net_balances [add_shared_expense title paid_by raw date t])
        = t - ((add_shared_expense title paid_by raw date t).participants.length
              : ℚ)
            * (add_shared_expense title paid_by raw date t).per_person_amount
    ∧ |t - ((add_shared_expense title paid_by raw date t).participants.length
            : ℚ)
          * (add_shared_expense title paid_by raw date t).per_person_amount|
        ≤ ((add_shared_expense title paid_by raw date t).participants.length
            : ℚ) / 200 := by
  have hset : (add_shared_expense title paid_by raw date t).is_settled
      = false := rfl
  have hfil : ([add_shared_expense title paid_by raw date t].filter
      (fun r => !r.is_settled))
      = [add_shared_expense title paid_by raw date t] := by
    simp [List.filter_cons, hset]
  have hpb : (add_shared_expense title paid_by raw date t).paid_by
      = paid_by := rfl
  have htot : (add_shared_expense title paid_by raw date t).total_amount
      = t := rfl
  refine ⟨rfl, ?_, ?_, ?_⟩
  · rw [netBalances_lookup, hfil, List.map_cons, List.map_nil, List.sum_cons,
      List.sum_nil, contrib, hpb, htot, count_paid_by_participants,
      if_pos rfl]
    push_cast
    ring
  · have hcalc :
        calculate_net_balances [add_shared_expense title paid_by raw date t]
          = processRecord [] (add_shared_expense title paid_by raw date t) := by
      rw [calculate_net_balances, hfil, List.foldl_cons, List.foldl_nil]
    rw [hcalc, vsum_processRecord _ (show (dkeys []).Nodup from List.nodup_nil),
      htot]
    show (0 : ℚ) + t - _ = _
    ring
  · have hnpos : (0 : ℚ)
        < ((add_shared_expense title paid_by raw date t).participants.length
            : ℚ) := by
      rw [participants_add_shared, List.length_cons]
      positivity
    have hper : (add_shared_expense title paid_by raw date t).per_person_amount
        = round2 (t
            / ((add_shared_expense title paid_by raw date t).participants.length
                : ℚ)) := rfl
    have key := abs_round2_sub (t
      / ((add_shared_expense title paid_by raw date t).participants.length : ℚ))
    have htn : ((add_shared_expense title paid_by raw date t).participants.length
          : ℚ)
        * (t / ((add_shared_expense title paid_by raw date t).participants.length
            : ℚ)) = t := by
      field_simp
    have hfact : t
        - ((add_shared_expense title paid_by raw date t).participants.length : ℚ)
          * (add_shared_expense title paid_by raw date t).per_person_amount
        = -(((add_shared_expense title paid_by raw date t).participants.length
              : ℚ)
            * (round2 (t
                / ((add_shared_expense title paid_by raw date
                    t).participants.length : ℚ))
              - t / ((add_shared_expense title paid_by raw date
                  t).participants.length : ℚ))) := by
      rw [hper, mul_sub, htn]
      ring
    rw [hfact, abs_neg, abs_mul, abs_of_pos hnpos]
    calc ((add_shared_expense title paid_by raw date t).participants.length : ℚ)
          * |round2 (t
              / ((add_shared_expense title paid_by raw date
                  t).participants.length : ℚ))
            - t / ((add_shared_expense title paid_by raw date
                t).participants.length : ℚ)|
        ≤ ((add_shared_expense title paid_by raw date t).participants.length
            : ℚ) * (1 / 200) :=
          mul_le_mul_of_nonneg_left key (le_of_lt hnpos)
      _ = ((add_shared_expense title paid_by raw date t).participants.length
            : ℚ) / 200 := by ring

/-- C5 counterexample: `month_name 0` returns the empty string instead of
    failing, refuting the claim that every `n ≤ 0` fails with
    `InvalidArgument`. -/
theorem claim_C5_counterexample :
    month_name 0 ≠ none ∧ month_name 0 = some "" := ⟨by decide, by decide⟩

/-- C5 (amended): `month_name n` returns the canonical display name for
    every `n` in `1..12`; but outside that range it follows Python sequence
    indexing on the 13-entry `calendar.month_name`: `n = 0` and `n = -13`
    return the empty string, `-12 ≤ n ≤ -1` return a (nonempty) month name
    by indexing from the end, and only `n ≥ 13` or `n ≤ -14` fail — with an
    `IndexError`, not `InvalidArgument`. -/
theorem claim_C5 :
    (month_name 1 = some "January" ∧ month_name 2 = some "February"
      ∧ month_name 3 = some "March" ∧ month_name 4 = some "April"
      ∧ month_name 5 = some "May" ∧ month_name 6 = some "June"
      ∧ month_name 7 = some "July" ∧ month_name 8 = some "August"
      ∧ month_name 9 = some "September" ∧ month_name 10 = some "October"
      ∧ month_name 11 = some "November" ∧ month_name 12 = some "December")
    ∧ month_name 0 = some ""
    ∧ month_name (-13) = some ""
    ∧ (∀ n : ℤ, -12 ≤ n → n ≤ -1 →
        (month_name n).isSome = true ∧ month_name n ≠ some "")
    ∧ (∀ n : ℤ, 13 ≤ n → month_name n = none)
    ∧ (∀ n : ℤ, n ≤ -14 → month_name n = none) := by
  refine ⟨by decide, by decide, by decide, ?_, ?_, ?_⟩
  · intro n h1 h2
    interval_cases n <;> exact ⟨by decide, by decide⟩
  · intro n h
    have hlen : monthNames.length = 13 := rfl
    rw [month_name, pyIndex]
    simp only [hlen]
    rw [if_neg (by omega : ¬ (n : ℤ) < 0)]
    rw [if_neg (by omega : ¬ (n : ℤ) < 0)]
    apply List.get?_eq_none.mpr
    rw [hlen]
    omega
  · intro n h
    have hlen : monthNames.length = 13 := rfl
    rw [month_name, pyIndex]
    simp only [hlen]
    rw [if_pos (by omega : (n : ℤ) < 0)]
    rw [if_pos (show n + ((13 : ℕ) : ℤ) < 0 by push_cast; omega)]

/-- C5 witness: the amended theorem read off at `n = -5` (returns May's
    complement, a nonempty name), `n = 20` and `n = -20` (both fail). -/
theorem claim_C5_witness :
    ((month_name (-5)).isSome = true ∧ month_name (-5) ≠ some "")
    ∧ month_name 20 = none
    ∧ month_name (-20) = none :=
  ⟨claim_C5.2.2.2.1 (-5) (by norm_num) (by norm_num),
   claim_C5.2.2.2.2.1 20 (by norm_num),
   claim_C5.2.2.2.2.2 (-20) (by norm_num)⟩

/-- C6: `get_monthly_breakdown year` has exactly the month display names
    `1..K` as keys (`K` = current month if `year` is the current year, else
    12) — zero-filled, so an empty snapshot still yields every month — and
    maps month `m`'s name to the summed amounts of the non-deleted,
    non-shared records of `(m, year)`; records with `month > K` contribute
    to no key.  Months are assumed well-formed (`1..12`) as the expense
    intake guarantees. -/
theorem claim_C6 (cy cm : ℕ) (records : List Expense) (year : ℕ)
    (hcm : cm ≤ 12) (hrec : ∀ e ∈ records, 1 ≤ e.month ∧ e.month ≤ 12) :
    dkeys (get_monthly_breakdown cy cm records year)
      = (List.range (if year = cy then cm else 12)).map (fun i => mname (i + 1))
    ∧ (∀ m : ℕ, 1 ≤ m → m ≤ (if year = cy then cm else 12) →
        lookupOpt (get_monthly_breakdown cy cm records year) (mname m)
          = some (((records.filter
              (fun e => e.month == m && yearlyPred year e)).map
                (·.amount)).sum)) := by
  constructor
  · rw [get_monthly_breakdown, dkeys_foldl_breakdownStep, dkeys_breakdownInit]
  · intro m h1 h2
    have hK : (if year = cy then cm else 12) ≤ 12 := by split <;> omega
    have hbinit :=
      hasKey_breakdownInit (K := if year = cy then cm else 12) h1 h2
    have hkey : hasKey (get_monthly_breakdown cy cm records year) (mname m)
        = true := by
      rw [get_monthly_breakdown]
      exact hasKey_foldl_breakdownStep _ hbinit
    rw [lookupOpt_eq_some hkey]
    congr 1
    rw [get_monthly_breakdown,
      lookupD_foldl_breakdownStep hK h1 h2 _
        (fun e he => hrec e (List.mem_filter.mp he).1) _ hbinit,
      lookupD_breakdownInit, zero_add, List.filter_filter]

/-- C6 witness: the theorem at the empty snapshot for March 2025: three
    zero-filled keys, and February reads as the empty sum. -/
theorem claim_C6_witness :
    dkeys (get_monthly_breakdown 2025 3 [] 2025)
        = (List.range (if 2025 = 2025 then 3 else 12)).map
            (fun i => mname (i + 1))
    ∧ lookupOpt (get_monthly_breakdown 2025 3 [] 2025) (mname 2)
        = some ((([] : List Expense).filter
            (fun e => e.month == 2 && yearlyPred 2025 e)).map (·.amount)).sum := by
  have h := claim_C6 2025 3 [] 2025 (by norm_num)
    (fun e he => absurd he (List.not_mem_nil e))
  exact ⟨h.1, h.2 2 (by norm_num) (by norm_num)⟩

/-- C7: `budget_alerts month year` contains the alert for a budget exactly
    when the category's spend for that period strictly exceeds the budget's
    monthly limit; spend equal to the limit never alerts, and a budget
    whose category has no entry in the totals (spend 0) is skipped whenever
    its limit is non-negative. -/
theorem claim_C7 (records : List Expense) (budgets : List Budget)
    (month year : ℕ) (b : Budget) (hb : b ∈ budgets) :
    (({ category := b.category, limit := b.monthly_limit,
        spent := lookupD (get_category_totals records (some month) (some year))
          b.category } : Alert)
        ∈ budget_alerts records budgets month year
      ↔ b.monthly_limit
          < lookupD (get_category_totals records (some month) (some year))
              b.category)
    ∧ (lookupD (get_category_totals records (some month) (some year))
          b.category = b.monthly_limit
        → ({ category := b.category, limit := b.monthly_limit,
             spent := lookupD
               (get_category_totals records (some month) (some year))
               b.category } : Alert)
            ∉ budget_alerts records budgets month year)
    ∧ (hasKey (get_category_totals records (some month) (some year))
          b.category = false
        → 0 ≤ b.monthly_limit
        → ({ category := b.category, limit := b.monthly_limit,
             spent := lookupD
               (get_category_totals records (some month) (some year))
               b.category } : Alert)
            ∉ budget_alerts records budgets month year) := by
  have hiff :
      ({ category := b.category, limit := b.monthly_limit,
         spent := lookupD (get_category_totals records (some month) (some year))
           b.category } : Alert)
          ∈ budget_alerts records budgets month year
        ↔ b.monthly_limit
            < lookupD (get_category_totals records (some month) (some year))
                b.category := by
    constructor
    · intro hmem
      simp only [budget_alerts, List.mem_filterMap] at hmem
      obtain ⟨b', hb', heq⟩ := hmem
      by_cases hcond : b'.monthly_limit
          < lookupD (get_category_totals records (some month) (some year))
              b'.category
      · rw [if_pos hcond] at heq
        injection heq with heq
        injection heq with h1 h2 h3
        rw [h1, h2] at hcond
        exact hcond
      · rw [if_neg hcond] at heq
        exact absurd heq (by simp)
    · intro hlt
      simp only [budget_alerts, List.mem_filterMap]
      exact ⟨b, hb, by rw [if_pos hlt]⟩
  refine ⟨hiff, ?_, ?_⟩
  · intro heq hmem
    have := hiff.mp hmem
    rw [heq] at this
    exact lt_irrefl _ this
  · intro hnk hnn hmem
    have h := hiff.mp hmem
    rw [lookupD_eq_zero_of_not_hasKey hnk] at h
    exact absurd h (not_lt.mpr hnn)

/-- C7 witness: the iff at a one-record snapshot (100 spent on "food") and
    a 50-limit budget, plus the skip clause for an absent category. -/
theorem claim_C7_witness :
    (({ category := "food", limit := 50,
        spent := lookupD
          (get_category_totals
            [{ amount := 100, category := "food", description := "",
               payment_mode := "", date := "", month := 1, year := 2025,
               is_shared := false, is_deleted := false }] (some 1) (some 2025))
          "food" } : Alert)
        ∈ budget_alerts
            [{ amount := 100, category := "food", description := "",
               payment_mode := "", date := "", month := 1, year := 2025,
               is_shared := false, is_deleted := false }]
            [{ category := "food", monthly_limit := 50 }] 1 2025
      ↔ (50 : ℚ)
          < lookupD
              (get_category_totals
                [{ amount := 100, category := "food", description := "",
                   payment_mode := "", date := "", month := 1, year := 2025,
                   is_shared := false, is_deleted := false }]
                (some 1) (some 2025))
              "food")
    ∧ (hasKey (get_category_totals ([] : List Expense) (some 1) (some 2025))
          "gas" = false
        → (0 : ℚ) ≤ 10
        → ({ category := "gas", limit := 10,
             spent := lookupD
               (get_category_totals ([] : List Expense) (some 1) (some 2025))
               "gas" } : Alert)
            ∉ budget_alerts ([] : List Expense)
                [{ category := "gas", monthly_limit := 10 }] 1 2025) :=
  ⟨(claim_C7
      [{ amount := 100, category := "food", description := "",
         payment_mode := "", date := "", month := 1, year := 2025,
         is_shared := false, is_deleted := false }]
      [{ category := "food", monthly_limit := 50 }] 1 2025
      { category := "food", monthly_limit := 50 }
      (List.mem_singleton.mpr rfl)).1,
   (claim_C7 ([] : List Expense)
      [{ category := "gas", monthly_limit := 10 }] 1 2025
      { category := "gas", monthly_limit := 10 }
      (List.mem_singleton.mpr rfl)).2.2⟩

/-- C8: for every month `m` in `1..12` and every year `y`,
    `get_monthly_total m y` is the sum of `amount` over exactly the records
    with that month and year and `is_deleted = false`, `is_shared = false`;
    it is invariant under permutation of the record snapshot, and it is `0`
    (not an error) when no record matches. -/
theorem claim_C8 (records : List Expense) (month year : ℕ)
    (_h1 : 1 ≤ month) (_h2 : month ≤ 12) :
    get_monthly_total records month year
      = (records.map (fun e =>
          if e.month = month ∧ e.year = year
              ∧ e.is_deleted = false ∧ e.is_shared = false
          then e.amount else 0)).sum
    ∧ (∀ records' : List Expense, records.Perm records' →
        get_monthly_total records month year
          = get_monthly_total records' month year)
    ∧ ((∀ e ∈ records, ¬(e.month = month ∧ e.year = year
          ∧ e.is_deleted = false ∧ e.is_shared = false))
        → get_monthly_total records month year = 0) := by
  refine ⟨?_, ?_, ?_⟩
  · rw [get_monthly_total]
    induction records with
    | nil => rfl
    | cons e rest ih =>
      rw [List.filter_cons, List.map_cons, List.sum_cons]
      by_cases hp : e.month = month ∧ e.year = year
          ∧ e.is_deleted = false ∧ e.is_shared = false
      · rw [if_pos ((monthlyPred_iff month year e).mpr hp), if_pos hp,
          List.map_cons, List.sum_cons, ih]
      · rw [if_neg (fun hb => hp ((monthlyPred_iff month year e).mp hb)),
          if_neg hp, ih, zero_add]
  · intro records' hperm
    rw [get_monthly_total, get_monthly_total]
    exact ((hperm.filter _).map _).sum_eq
  · intro hall
    rw [get_monthly_total, List.filter_eq_nil_iff.mpr
      (fun e he hb => hall e he ((monthlyPred_iff month year e).mp hb))]
    rfl

/-- C8 witness: the theorem instantiated at concrete inputs: a two-record
    snapshot and its swap, and the empty snapshot for the zero case. -/
theorem claim_C8_witness :
    (get_monthly_total
        [{ amount := 5, category := "a", description := "", payment_mode := "",
           date := "", month := 1, year := 2025, is_shared := false,
           is_deleted := false },
         { amount := 7, category := "b", description := "", payment_mode := "",
           date := "", month := 2, year := 2025, is_shared := false,
           is_deleted := false }] 1 2025
      = get_monthly_total
        [{ amount := 7, category := "b", description := "", payment_mode := "",
           date := "", month := 2, year := 2025, is_shared := false,
           is_deleted := false },
         { amount := 5, category := "a", description := "", payment_mode := "",
           date := "", month := 1, year := 2025, is_shared := false,
           is_deleted := false }] 1 2025)
    ∧ get_monthly_total [] 1 2025 = 0 :=
  ⟨((claim_C8
      [{ amount := 5, category := "a", description := "", payment_mode := "",
         date := "", month := 1, year := 2025, is_shared := false,
         is_deleted := false },
       { amount := 7, category := "b", description := "", payment_mode := "",
         date := "", month := 2, year := 2025, is_shared := false,
         is_deleted := false }] 1 2025 (by norm_num) (by norm_num)).2.1 _
      (List.Perm.swap _ _ [])),
   ((claim_C8 [] 1 2025 (by norm_num) (by norm_num)).2.2
      (fun e he => absurd he (List.not_mem_nil e)))⟩

/-- C9: `average_monthly_spend` returns `round2 (yearly total / K)` where
    `K` is the current month for the current year and `12` otherwise, and
    returns `0` instead of dividing by zero when `K = 0`. -/
theorem claim_C9 (cy cm : ℕ) (records : List Expense) (year : ℕ) :
    ((if year = cy then cm else 12) = 0
      → average_monthly_spend cy cm records year = 0)
    ∧ ((if year = cy then cm else 12) ≠ 0
      → average_monthly_spend cy cm records year
          = round2 (get_yearly_total records year
              / (((if year = cy then cm else 12) : ℕ) : ℚ))) := by
  constructor
  · intro h
    rw [average_monthly_spend]
    simp only [h]
    rfl
  · intro h
    rw [average_monthly_spend]
    simp only [if_neg h]

/-- C9 witness: the theorem at `cy = year = 2025` with `cm = 0` (the
    guarded division) and with `cm = 3`. -/
theorem claim_C9_witness :
    average_monthly_spend 2025 0 [] 2025 = 0
    ∧ average_monthly_spend 2025 3 [] 2025
        = round2 (get_yearly_total [] 2025
            / (((if 2025 = 2025 then 3 else 12) : ℕ) : ℚ)) :=
  ⟨(claim_C9 2025 0 [] 2025).1 (by norm_num),
   (claim_C9 2025 3 [] 2025).2 (by norm_num)⟩

/-- C10: `calculate_net_balances` is additive over records: for two
    unsettled records, every participant's balance from the two-record
    snapshot is the sum of the balances from the singleton snapshots
    (absent keys reading as 0). -/
theorem claim_C10 (r1 r2 : SharedExpense) (h1 : r1.is_settled = false)
    (h2 : r2.is_settled = false) (x : String) :
    lookupD (calculate_net_balances [r1, r2]) x
      = lookupD (calculate_net_balances [r1]) x
        + lookupD (calculate_net_balances [r2]) x := by
  rw [netBalances_lookup, netBalances_lookup, netBalances_lookup]
  simp [List.filter_cons, h1, h2]

/-- C10 witness: the theorem at two concrete unsettled records, read at
    participant "B". -/
theorem claim_C10_witness :
    lookupD (calculate_net_balances
      [{ title := "t1", total_amount := 90, paid_by := "A",
         participants := ["A", "B", "C"], per_person_amount := 30,
         date := "d", is_settled := false, settled_at := none },
       { title := "t2", total_amount := 40, paid_by := "B",
         participants := ["B", "C"], per_person_amount := 20,
         date := "d", is_settled := false, settled_at := none }]) "B"
      = lookupD (calculate_net_balances
          [{ title := "t1", total_amount := 90, paid_by := "A",
             participants := ["A", "B", "C"], per_person_amount := 30,
             date := "d", is_settled := false, settled_at := none }]) "B"
        + lookupD (calculate_net_balances
          [{ title := "t2", total_amount := 40, paid_by := "B",
             participants := ["B", "C"], per_person_amount := 20,
             date := "d", is_settled := false, settled_at := none }]) "B" :=
  claim_C10 _ _ rfl rfl "B"

end ExpenseTracker
